import Mathlib

set_option maxRecDepth 100000

/-!
Verification of `scripts/update_manifest.py`: a shallow embedding of the
manifest builder (git-blob content hashing, directory scanning, multi-source
merging, JSON serialization and atomic write) together with theorems about
the behaviour the specification describes.

Bytes are modelled as natural numbers below 256; byte buffers as `List Nat`.
-/

namespace UpdateManifest

/-! ## SHA-1

The script hashes with `hashlib.sha1`, an external library implementing the
standard SHA-1 algorithm (FIPS 180); the spec describes it as "a 160-bit
SHA-1 digest ... rendered as lowercase hexadecimal".  We embed the standard
algorithm over byte lists. -/

/-- Truncation to a 32-bit word. -/
def w32 (n : Nat) : Nat := n % 4294967296

/-- Left rotation of a 32-bit word by `k` bits. -/
def rotl (k n : Nat) : Nat := w32 ((n <<< k) ||| (n >>> (32 - k)))

/-- SHA-1 padding: append `0x80`, zero bytes up to 56 mod 64, then the
bit length as 8 big-endian bytes. -/
def sha1Pad (msg : List Nat) : List Nat :=
  let len := msg.length
  let zeros := (119 - len % 64) % 64
  let bitlen := 8 * len
  msg ++ [128] ++ List.replicate zeros 0 ++
    [56, 48, 40, 32, 24, 16, 8, 0].map (fun s => (bitlen >>> s) % 256)

/-- Split a byte list into 64-byte blocks (fuel-based so the kernel can
evaluate it; `fuel = l.length` always suffices). -/
def toBlocksAux : Nat → List Nat → List (List Nat)
  | 0, _ => []
  | fuel + 1, l => if l = [] then [] else l.take 64 :: toBlocksAux fuel (l.drop 64)

/-- Split a byte list into 64-byte blocks. -/
def toBlocks (l : List Nat) : List (List Nat) := toBlocksAux l.length l

/-- Big-endian 32-bit words from bytes. -/
def bytesToWords : List Nat → List Nat
  | b0 :: b1 :: b2 :: b3 :: rest =>
      ((b0 <<< 24) ||| (b1 <<< 16) ||| (b2 <<< 8) ||| b3) :: bytesToWords rest
  | _ => []

/-- One extension step: append `rotl1 (w[n-3] ^ w[n-8] ^ w[n-14] ^ w[n-16])`. -/
def extendStep (ws : List Nat) : List Nat :=
  let n := ws.length
  ws ++ [rotl 1 (((ws.getD (n - 3) 0).xor ((ws.getD (n - 8) 0).xor
    ((ws.getD (n - 14) 0).xor (ws.getD (n - 16) 0)))))]

/-- Extend the 16 message words with `k` further words. -/
def extendWords : Nat → List Nat → List Nat
  | 0, ws => ws
  | k + 1, ws => extendWords k (extendStep ws)

/-- One round of the SHA-1 compression function; `iw = (round index, word)`. -/
def sha1Round (st : Nat × Nat × Nat × Nat × Nat) (iw : Nat × Nat) :
    Nat × Nat × Nat × Nat × Nat :=
  let (a, b, c, d, e) := st
  let (i, wi) := iw
  let f :=
    if i < 20 then (b &&& c) ||| ((b ^^^ 4294967295) &&& d)
    else if i < 40 then b ^^^ c ^^^ d
    else if i < 60 then (b &&& c) ||| (b &&& d) ||| (c &&& d)
    else b ^^^ c ^^^ d
  let k :=
    if i < 20 then 1518500249
    else if i < 40 then 1859775393
    else if i < 60 then 2400959708
    else 3395469782
  let temp := w32 (rotl 5 a + f + e + k + wi)
  (temp, a, rotl 30 b, c, d)

/-- Compress one 64-byte block into the running hash state. -/
def sha1Block (hs : Nat × Nat × Nat × Nat × Nat) (block : List Nat) :
    Nat × Nat × Nat × Nat × Nat :=
  let ws := extendWords 64 (bytesToWords block)
  let (h0, h1, h2, h3, h4) := hs
  let (a, b, c, d, e) :=
    ws.enum.foldl sha1Round (h0, h1, h2, h3, h4)
  (w32 (h0 + a), w32 (h1 + b), w32 (h2 + c), w32 (h3 + d), w32 (h4 + e))

/-- Big-endian bytes of a 32-bit word. -/
def wordBytes (h : Nat) : List Nat :=
  [(h >>> 24) % 256, (h >>> 16) % 256, (h >>> 8) % 256, h % 256]

/-- SHA-1 digest (20 bytes) of a byte list. -/
def sha1 (msg : List Nat) : List Nat :=
  let st := (toBlocks (sha1Pad msg)).foldl sha1Block
    (1732584193, 4023233417, 2562383102, 271733878, 3285377520)
  wordBytes st.1 ++ wordBytes st.2.1 ++ wordBytes st.2.2.1 ++
    wordBytes st.2.2.2.1 ++ wordBytes st.2.2.2.2

/-- Lowercase hexadecimal digit for `n % 16`. -/
def hexChar (n : Nat) : Char :=
  if n % 16 < 10 then Char.ofNat (48 + n % 16) else Char.ofNat (87 + n % 16)

/-- Two lowercase hex digits of a byte. -/
def byteHex (b : Nat) : List Char := [hexChar (b >>> 4), hexChar b]

/-- Lowercase hexadecimal rendering of a byte list (`hexdigest`). -/
def hexStr (bytes : List Nat) : String := ⟨bytes.flatMap byteHex⟩

/-! ## The content hasher of the script

```python
def git_blob_sha1(data: bytes) -> str:
    # Git blob hash: sha1("blob <len>\0" + data)
    header = b"blob " + str(len(data)).encode("ascii") + b"\0"
    h = hashlib.sha1()
    h.update(header)
    h.update(data)
    return h.hexdigest()
```
-/

/-- ASCII bytes of a string (all strings hashed here are ASCII). -/
def strBytes (s : String) : List Nat := s.data.map Char.toNat

/-- `git_blob_sha1` from the source: hash of `"blob <len>\0" + data`. -/
def git_blob_sha1 (data : List Nat) : String :=
  let header := strBytes ("blob " ++ toString data.length) ++ [0]
  hexStr (sha1 (header ++ data))

/-- A character is a lowercase hexadecimal digit (`0-9` or `a-f`). -/
def isLowerHex (c : Char) : Bool :=
  (48 ≤ c.toNat && c.toNat ≤ 57) || (97 ≤ c.toNat && c.toNat ≤ 102)

lemma isLowerHex_hexChar (n : Nat) : isLowerHex (hexChar n) = true := by
  have hmm : n % 16 % 16 = n % 16 := Nat.mod_mod_of_dvd n dvd_rfl
  have heq : hexChar n = hexChar (n % 16) := by
    simp only [hexChar, hmm]
  rw [heq]
  have h16 : n % 16 < 16 := Nat.mod_lt _ (by norm_num)
  generalize n % 16 = m at h16 heq ⊢
  interval_cases m <;> decide

lemma sha1_length (msg : List Nat) : (sha1 msg).length = 20 := by
  simp [sha1, wordBytes]

lemma hexStr_length (bytes : List Nat) :
    (hexStr bytes).length = 2 * bytes.length := by
  unfold hexStr String.length
  induction bytes with
  | nil => rfl
  | cons b bs ih => simp_all [byteHex]; omega

lemma hexStr_lowerHex (bytes : List Nat) :
    (hexStr bytes).data.all isLowerHex = true := by
  simp only [hexStr, List.all_eq_true]
  intro c hc
  obtain ⟨b, _, hb⟩ := List.mem_flatMap.mp hc
  simp only [byteHex, List.mem_cons, List.mem_singleton] at hb
  rcases hb with h | h | h
  · exact h ▸ isLowerHex_hexChar _
  · exact h ▸ isLowerHex_hexChar _
  · cases h

end UpdateManifest

namespace UpdateManifest

/-- Claim C1: for every byte buffer `b`, the content hasher returns the
lowercase hexadecimal rendering (40 characters) of the SHA-1 digest of the
stream `"blob " ++ decimal length of b ++ NUL ++ b`; in particular for the
7-byte content `\x7b"a":1\x7d` the digest equals the SHA-1 of the literal byte
sequence `blob 7\0\x7b"a":1\x7d` (the known git blob hash
`daa5053ecf5f9a37b2de733d0751cc1ab53ac010`). -/
theorem c1_git_blob_sha1_spec (b : List Nat) :
    git_blob_sha1 b
      = hexStr (sha1 (strBytes ("blob " ++ toString b.length) ++ [0] ++ b)) ∧
    (git_blob_sha1 b).length = 40 ∧
    (git_blob_sha1 b).data.all isLowerHex = true ∧
    (strBytes "\x7b\"a\":1\x7d").length = 7 ∧
    git_blob_sha1 (strBytes "\x7b\"a\":1\x7d")
      = hexStr (sha1 (strBytes "blob 7" ++ [0] ++ strBytes "\x7b\"a\":1\x7d")) ∧
    git_blob_sha1 (strBytes "\x7b\"a\":1\x7d")
      = "daa5053ecf5f9a37b2de733d0751cc1ab53ac010" := by
  refine ⟨rfl, ?_, ?_, by decide, by decide, by decide⟩
  · show (hexStr _).length = 40
    rw [hexStr_length, sha1_length]
  · exact hexStr_lowerHex _

/-! ## SourceScanner: `gather_files`

```python
def gather_files(source_dir: str, include_exts=None):
    if include_exts is None:
        include_exts = {'.json'}
    files = []
    for root, dirs, filenames in os.walk(source_dir):
        # sort for deterministic output
        dirs.sort()
        filenames.sort()
        for fn in filenames:
            if include_exts and not any(fn.lower().endswith(e) for e in include_exts):
                continue
            full = os.path.join(root, fn)
            rel = os.path.relpath(full, source_dir)
            files.append((full, rel.replace('\\', '/')))
    return files
```

The filesystem is modelled by a directory tree carrying subdirectory and file
names; file contents are read through a separate `read` map keyed by full
path, as `open` does. -/

/-- Python `str.lower()` (ASCII case mapping; extensions and names compared
here are ASCII): lowercase every character. -/
def pyLower (s : String) : String := ⟨s.data.map Char.toLower⟩

/-- Python `str.endswith`. -/
def pyEndsWith (s e : String) : Bool := e.data.isSuffixOf s.data

/-- The filter inside the `gather_files` loop: a file is skipped iff
`include_exts` is nonempty and `fn.lower().endswith(e)` holds for no
configured extension `e`. -/
def fileIncluded (include_exts : List String) (fn : String) : Bool :=
  include_exts.isEmpty || include_exts.any (fun e => pyEndsWith (pyLower fn) e)

/-- A directory tree: subdirectories as (name, subtree) pairs and plain file
names, each in arbitrary (filesystem enumeration) order. -/
inductive FsTree where
  | node (dirs : List (String × FsTree)) (files : List String) : FsTree

mutual
/-- Number of nodes of a tree; used as recursion fuel for the walk. -/
def tsize : FsTree → Nat
  | .node dirs files => 1 + files.length + tsizeL dirs
def tsizeL : List (String × FsTree) → Nat
  | [] => 0
  | (_, t) :: rest => tsize t + tsizeL rest
end

/-- Lexicographic comparison of character lists by code point — the string
order Python's `list.sort()` uses. -/
def lexLe : List Char → List Char → Bool
  | [], _ => true
  | _ :: _, [] => false
  | a :: as, b :: bs =>
      if a.toNat < b.toNat then true
      else if b.toNat < a.toNat then false
      else lexLe as bs

/-- Python's `<=` on strings: lexicographic by code point. -/
def strle (a b : String) : Prop := lexLe a.data b.data = true

instance : DecidableRel strle := fun a b =>
  inferInstanceAs (Decidable (lexLe a.data b.data = true))

/-- Python `list.sort()` on strings (lexicographic by code point). -/
def sortStrings (l : List String) : List String := l.insertionSort strle

/-- The by-name order used to sort subdirectory entries (each entry carries
its subtree along). -/
def leName {α : Type} (a b : String × α) : Prop := strle a.1 b.1

instance {α : Type} : DecidableRel (@leName α) := fun a b =>
  inferInstanceAs (Decidable (lexLe a.1.data b.1.data = true))

/-- `dirs.sort()`: sort subdirectory entries by name. -/
def sortPairs {α : Type} (l : List (String × α)) : List (String × α) :=
  l.insertionSort leName

lemma lexLe_total : ∀ as bs, lexLe as bs = true ∨ lexLe bs as = true := by
  intro as
  induction as with
  | nil => intro bs; left; rfl
  | cons a as ih =>
      intro bs
      cases bs with
      | nil => right; rfl
      | cons b bs =>
          by_cases h₁ : a.toNat < b.toNat
          · left; simp [lexLe, h₁]
          · by_cases h₂ : b.toNat < a.toNat
            · right; simp [lexLe, h₂]
            · rcases ih bs with h | h
              · left; simp [lexLe, h₁, h₂, h]
              · right; simp [lexLe, h₁, h₂, h]

lemma lexLe_antisymm : ∀ as bs, lexLe as bs = true → lexLe bs as = true →
    as = bs := by
  intro as
  induction as with
  | nil =>
      intro bs h₁ h₂
      cases bs with
      | nil => rfl
      | cons b bs => simp [lexLe] at h₂
  | cons a as ih =>
      intro bs h₁ h₂
      cases bs with
      | nil => simp [lexLe] at h₁
      | cons b bs =>
          by_cases hab : a.toNat < b.toNat
          · have hba : ¬ b.toNat < a.toNat := by omega
            simp [lexLe, hab, hba] at h₂
          · by_cases hba : b.toNat < a.toNat
            · simp [lexLe, hab, hba] at h₁
            · have hn : a.toNat = b.toNat := by omega
              have hc : a = b := Char.ext (UInt32.ext hn)
              subst hc
              simp only [lexLe, hab, if_neg, if_false] at h₁ h₂
              rw [ih bs h₁ h₂]

lemma lexLe_trans : ∀ as bs cs, lexLe as bs = true → lexLe bs cs = true →
    lexLe as cs = true := by
  intro as
  induction as with
  | nil => intro bs cs _ _; rfl
  | cons a as ih =>
      intro bs cs h₁ h₂
      cases bs with
      | nil => simp [lexLe] at h₁
      | cons b bs =>
          cases cs with
          | nil => simp [lexLe] at h₂
          | cons c cs =>
              by_cases hab : a.toNat < b.toNat
              · by_cases hbc : b.toNat < c.toNat
                · simp [lexLe, show a.toNat < c.toNat by omega]
                · by_cases hcb : c.toNat < b.toNat
                  · simp [lexLe, hbc, hcb] at h₂
                  · simp [lexLe, show a.toNat < c.toNat by omega]
              · by_cases hba : b.toNat < a.toNat
                · simp [lexLe, hab, hba] at h₁
                · by_cases hbc : b.toNat < c.toNat
                  · simp [lexLe, show a.toNat < c.toNat by omega]
                  · by_cases hcb : c.toNat < b.toNat
                    · simp [lexLe, hbc, hcb] at h₂
                    · have hac : ¬ a.toNat < c.toNat := by omega
                      have hca : ¬ c.toNat < a.toNat := by omega
                      simp only [lexLe, hab, hba, if_neg, if_false] at h₁
                      simp only [lexLe, hbc, hcb, if_neg, if_false] at h₂
                      simp only [lexLe, hac, hca, if_neg, if_false]
                      exact ih bs cs h₁ h₂

lemma string_data_inj {a b : String} (h : a.data = b.data) : a = b := by
  cases a
  cases b
  exact congrArg String.mk h

instance : IsTotal String strle := ⟨fun a b => lexLe_total a.data b.data⟩

instance : IsTrans String strle := ⟨fun _ _ _ h₁ h₂ => lexLe_trans _ _ _ h₁ h₂⟩

instance {α : Type} : IsTotal (String × α) (@leName α) :=
  ⟨fun a b => lexLe_total a.1.data b.1.data⟩

instance {α : Type} : IsTrans (String × α) (@leName α) :=
  ⟨fun _ _ _ h₁ h₂ => lexLe_trans _ _ _ h₁ h₂⟩

/-- `os.path.join` (POSIX) of a directory and a bare name. -/
def pjoin (dir fn : String) : String := dir ++ "/" ++ fn

/-- Accumulated `os.path.relpath(full, source_dir)`: at the root of the walk
`relpath(join(src, fn), src) = fn`; one level down `d/fn`, and so on. -/
def rjoin (relp fn : String) : String :=
  if relp = "" then fn else relp ++ "/" ++ fn

/-- Python `rel.replace('\\', '/')`: replace every backslash character. -/
def bsToSlash (s : String) : String :=
  ⟨s.data.map (fun c => if c = '\\' then '/' else c)⟩

/-- The `os.walk` loop of `gather_files`, fuel-based so the kernel can
evaluate it (`fuel = tsize t` always suffices): at each directory, sort the
subdirectory names and the file names, emit this directory's filtered files
as `(full, rel)` pairs, then recurse into the subdirectories in sorted
order. -/
def walkAux (exts : List String) :
    Nat → String → String → FsTree → List (String × String)
  | 0, _, _, _ => []
  | fuel + 1, root, relp, .node dirs files =>
      ((sortStrings files).filter (fileIncluded exts)).map
          (fun fn => (pjoin root fn, bsToSlash (rjoin relp fn)))
        ++ (sortPairs dirs).flatMap
          (fun p => walkAux exts fuel (pjoin root p.1) (rjoin relp p.1) p.2)

/-- `gather_files(source_dir, include_exts)` over the tree rooted at
`source_dir`. -/
def gather_files (source_dir : String) (t : FsTree)
    (include_exts : List String) : List (String × String) :=
  walkAux include_exts (tsize t) source_dir "" t

/-- The default of the `include_exts` parameter (`{'.json'}`), applied when
the caller passes nothing — as `build_manifest` does. -/
def gather_files_default : List String := [".json"]

/-! ## ManifestBuilder: `build_manifest` and the merge loop of `main` -/

/-- A manifest entry `{'sha': ..., 'size': ...}`. -/
structure Entry where
  sha : String
  size : Nat
deriving DecidableEq

/-- Python dict assignment `d[k] = v` on an insertion-ordered association
list (dict keys are unique, so at most one entry matches): updates in place
when `k` is present, appends otherwise. -/
def dinsert {α : Type} [DecidableEq α] {β : Type} :
    List (α × β) → α → β → List (α × β)
  | [], k, v => [(k, v)]
  | p :: rest, k, v =>
      if p.1 = k then (k, v) :: rest else p :: dinsert rest k v

/-- Python dict lookup `d[k]`. -/
def dget {α : Type} [DecidableEq α] {β : Type} : List (α × β) → α → Option β
  | [], _ => none
  | p :: rest, k => if p.1 = k then some p.2 else dget rest k

/-- Python dict membership `k in d`. -/
def dmem {α : Type} [DecidableEq α] {β : Type} : List (α × β) → α → Bool
  | [], _ => false
  | p :: rest, k => decide (p.1 = k) || dmem rest k

/-- Warnings and errors the script prints to stderr. -/
inductive Msg where
  | readFailed (full : String)
  | sourceMissing (path : String)
  | duplicateKey (key : String)
  | noSources
  | noFiles
deriving DecidableEq

/-- The loop body of `build_manifest`: read one gathered file (skipping it,
with a warning, when the read fails), hash and size the bytes, and store
under `"<source_key>/<rel>"` (bare `rel` when the key is empty, as Python's
falsiness test does for the empty string). -/
def buildStep (read : String → Option (List Nat)) (source_key : String)
    (acc : List (String × Entry) × List Msg) (fr : String × String) :
    List (String × Entry) × List Msg :=
  match read fr.1 with
  | none => (acc.1, acc.2 ++ [Msg.readFailed fr.1])
  | some data =>
      let key := if source_key = "" then fr.2 else source_key ++ "/" ++ fr.2
      (dinsert acc.1 key ⟨git_blob_sha1 data, data.length⟩, acc.2)

/-- The loop of `build_manifest` over the gathered `(full, rel)` pairs. -/
def buildFiles (read : String → Option (List Nat)) (source_key : String)
    (files : List (String × String)) : List (String × Entry) × List Msg :=
  files.foldl (buildStep read source_key) ([], [])

/-- `build_manifest(source_dir, source_key)`.  Note: the source calls
`gather_files(source_dir)` without an `include_exts` argument, so the
default `{'.json'}` always applies here. -/
def build_manifest (read : String → Option (List Nat)) (source_dir : String)
    (t : FsTree) (source_key : String) : List (String × Entry) × List Msg :=
  buildFiles read source_key (gather_files source_dir t gather_files_default)

/-! ## Serializer: `write_output`

```python
def write_output(out_path: str, files_map: dict):
    obj = { 'generated': ..., 'files': {} }
    for k in sorted(files_map.keys()):
        obj['files'][k] = { 'sha': files_map[k]['sha'], 'size': files_map[k]['size'] }
    os.makedirs(os.path.dirname(out_path) or '.', exist_ok=True)
    tmp = out_path + '.tmp'
    with open(tmp, 'w', encoding='utf-8') as f:
        json.dump(obj, f, indent=2, ensure_ascii=False)
        f.write('\n')
    os.replace(tmp, out_path)
```
-/

/-- JSON values as `json.dump` sees them here: strings, non-negative
integers, and insertion-ordered objects. -/
inductive J where
  | str (s : String)
  | num (n : Nat)
  | obj (fields : List (String × J))

/-- `json.dump` escaping of one character, with `ensure_ascii=False`:
backslash, double quote and control characters are escaped, everything else
passes through. -/
def jEscapeChar (c : Char) : List Char :=
  if c = '"' then ['\\', '"']
  else if c = '\\' then ['\\', '\\']
  else if c = '\n' then ['\\', 'n']
  else if c = '\t' then ['\\', 't']
  else if c = '\r' then ['\\', 'r']
  else if c.toNat = 8 then ['\\', 'b']
  else if c.toNat = 12 then ['\\', 'f']
  else if c.toNat < 32 then
    ['\\', 'u', '0', '0', hexChar (c.toNat / 16), hexChar c.toNat]
  else [c]

/-- A JSON string literal. -/
def jStr (s : String) : String := "\"" ++ ⟨s.data.flatMap jEscapeChar⟩ ++ "\""

/-- `n` spaces. -/
def spaces (n : Nat) : String := ⟨List.replicate n ' '⟩

mutual
/-- `json.dump(·, indent=2)` rendering at indentation `ind` (the separators
are the Python defaults for indented output: `,` and `: `). -/
def jRender (ind : Nat) : J → String
  | .str s => jStr s
  | .num n => toString n
  | .obj fields =>
      match jRenderFields (ind + 2) fields with
      | [] => "\x7b\x7d"
      | parts =>
          "\x7b\n" ++ String.intercalate ",\n" parts ++ "\n" ++ spaces ind ++ "\x7d"
/-- The rendered `"key": value` lines of an object's fields. -/
def jRenderFields (ind : Nat) : List (String × J) → List String
  | [] => []
  | (k, v) :: rest =>
      (spaces ind ++ jStr k ++ ": " ++ jRender ind v) :: jRenderFields ind rest
end

/-- The `\x7b'sha': ..., 'size': ...\x7d` object of one manifest entry. -/
def entryJ (e : Entry) : J := .obj [("sha", .str e.sha), ("size", .num e.size)]

/-- The object `write_output` builds before dumping: `generated` holds the
timestamp taken at serialization time, and `files` is filled by assigning
the entries in sorted key order (`files_map[k]` always succeeds because `k`
ranges over the keys, hence the `getD` default is never used). -/
def write_output_obj (now : String) (files_map : List (String × Entry)) : J :=
  .obj [("generated", .str now),
        ("files", .obj ((sortStrings (files_map.map Prod.fst)).foldl
          (fun acc k => dinsert acc k (entryJ ((dget files_map k).getD ⟨"", 0⟩)))
          []))]

/-- The full document `write_output` writes: the dumped object followed by a
trailing newline. -/
def write_output_doc (now : String) (files_map : List (String × Entry)) : String :=
  jRender 0 (write_output_obj now files_map) ++ "\n"

/-- Head part of `os.path.dirname` given the characters and the index of the
last `/` counted from the end (`none` when there is no slash): the part
before that slash, with trailing slashes stripped unless it is all
slashes. -/
def dirnameAux (cs : List Char) (idx : Option Nat) : String :=
  match idx with
  | none => ""
  | some i =>
      let head := cs.take (cs.length - i)
      if head.all (fun c => decide (c = '/')) then ⟨head⟩
      else ⟨(head.reverse.dropWhile (fun c => decide (c = '/'))).reverse⟩

/-- `os.path.dirname` for POSIX paths: empty when there is no slash. -/
def dirname (p : String) : String :=
  dirnameAux p.data (p.data.reverse.findIdx? (fun c => decide (c = '/')))

/-- The filesystem side effects `write_output` performs after serializing,
in program order: `os.makedirs(os.path.dirname(out_path) or '.',
exist_ok=True)`, write the document to `out_path + '.tmp'`, then
`os.replace(tmp, out_path)`. -/
inductive Eff where
  | mkdirs (d : String)
  | writeFile (p : String) (content : String)
  | replace (src dst : String)

def write_output_effects (out_path doc : String) : List Eff :=
  [.mkdirs (if dirname out_path = "" then "." else dirname out_path),
   .writeFile (out_path ++ ".tmp") doc,
   .replace (out_path ++ ".tmp") out_path]

/-- Filesystem state: file contents by path, and the set of existing
directories. -/
structure FS where
  files : String → Option String
  dirs : List String

/-- Successful execution of one effect.  `replace` moves the source file
onto the destination in one step. -/
def applyEff (st : FS) : Eff → FS
  | .mkdirs d => ⟨st.files, d :: st.dirs⟩
  | .writeFile p c => ⟨fun q => if q = p then some c else st.files q, st.dirs⟩
  | .replace src dst =>
      ⟨fun q =>
        if q = src then none
        else if q = dst then st.files src
        else st.files q, st.dirs⟩

/-- Possible failures of one effect and the state each leaves behind:
`makedirs` with `exist_ok=True` cannot fail when the target directory
already exists, and touches no file when it does fail; a failed write may
leave any prefix of the content at the written path; `os.replace` is atomic,
so a failed replace changes nothing. -/
inductive EffFails : FS → Eff → FS → Prop where
  | mkdirs (st : FS) (d : String) (dirs' : List String) (h : d ∉ st.dirs) :
      EffFails st (.mkdirs d) ⟨st.files, dirs'⟩
  | writeFile (st : FS) (p c pre : String) (h : pre.data <+: c.data) :
      EffFails st (.writeFile p c)
        ⟨fun q => if q = p then some pre else st.files q, st.dirs⟩
  | replace (st : FS) (src dst : String) : EffFails st (.replace src dst) st

/-- Executing a list of effects: run them in order; an uncaught failure
stops the run with result flag `false` (the exception propagates). -/
inductive RunsTo : FS → List Eff → Bool × FS → Prop where
  | done (st : FS) : RunsTo st [] (true, st)
  | step (st : FS) (e : Eff) (es : List Eff) (out : Bool × FS) :
      RunsTo (applyEff st e) es out → RunsTo st (e :: es) out
  | fail (st st' : FS) (e : Eff) (es : List Eff) :
      EffFails st e st' → RunsTo st (e :: es) (false, st')

/-! ## `main` -/

/-- The parsed command line: `--source` values in order, `--output`, and the
`--include-ext` list. -/
structure Args where
  source : List String
  output : String
  include_ext : List String

/-- The world `main` runs against: which paths are directories, the tree
rooted at each directory, and file contents by full path (`none` = the read
raises). -/
structure World where
  isdir : String → Bool
  tree : String → FsTree
  read : String → Option (List Nat)

/-- Splitting one `--source` value: `"key=path"` (split at the first `=`,
both sides stripped) or a bare path whose key is
`os.path.basename(os.path.normpath(path))` — modelled as the last non-empty
`/`-separated component (`normpath`'s `.`/`..` resolution is not modelled;
no claim depends on it). -/
def parseSource (s : String) : String × String :=
  if s.data.contains '=' then
    let parts := s.splitOn "="
    ((parts.headD "").trim, (String.intercalate "=" parts.tail).trim)
  else
    (((s.splitOn "/").filter (fun c => !c.isEmpty)).getLastD "", s)

/-- The merge loop of `main` (lines 121–125): insert every entry of one
source's map into `combined`, warning when the key is already present —
the later entry overwrites. -/
def mergeInto (acc : List (String × Entry) × List Msg)
    (m : List (String × Entry)) : List (String × Entry) × List Msg :=
  m.foldl
    (fun acc kv =>
      (dinsert acc.1 kv.1 kv.2,
       if dmem acc.1 kv.1 then acc.2 ++ [Msg.duplicateKey kv.1] else acc.2))
    acc

/-- Processing one `--source` value in `main`'s loop: parse it, skip it with
a warning when the path is not a directory, otherwise build its manifest and
merge. -/
def processSource (w : World) (acc : List (String × Entry) × List Msg)
    (s : String) : List (String × Entry) × List Msg :=
  let kp := parseSource s
  if w.isdir kp.2 = false then (acc.1, acc.2 ++ [Msg.sourceMissing kp.2])
  else
    let built := build_manifest w.read kp.2 (w.tree kp.2) kp.1
    mergeInto (acc.1, acc.2 ++ built.2) built.1

/-- What a run of `main` produced: the process exit code, the file write (if
any) as `(path, document)`, and the warnings/errors. -/
structure RunResult where
  exit : Nat
  written : Option (String × String)
  msgs : List Msg

/-- `main(argv)`.  `exts` mirrors line 103: it normalizes the configured
extensions but is never passed on — `build_manifest` calls `gather_files`
without it, so the fixed default `{'.json'}` governs filtering. -/
def mainRun (w : World) (args : Args) (now : String) : RunResult :=
  if args.source.isEmpty then ⟨2, none, [Msg.noSources]⟩
  else
    let _exts := args.include_ext.map
      (fun e => if e.startsWith "." then e else "." ++ e)
    let cw := args.source.foldl (processSource w) ([], [])
    if cw.1.isEmpty then ⟨2, none, cw.2 ++ [Msg.noFiles]⟩
    else ⟨0, some (args.output, write_output_doc now cw.1), cw.2⟩

/-! ## Dictionary lemmas -/

section DictLemmas

variable {α : Type} [DecidableEq α] {β : Type}

lemma dget_dinsert (d : List (α × β)) (k k' : α) (v : β) :
    dget (dinsert d k v) k' = if k' = k then some v else dget d k' := by
  induction d with
  | nil =>
      by_cases h : k' = k
      · simp [dinsert, dget, h]
      · have h' : ¬ (k = k') := fun he => h he.symm
        simp [dinsert, dget, h, h']
  | cons p rest ih =>
      by_cases hpk : p.1 = k
      · subst hpk
        by_cases h : k' = p.1
        · simp [dinsert, dget, h]
        · have h' : ¬ (p.1 = k') := fun he => h he.symm
          simp [dinsert, dget, h, h']
      · by_cases hpk' : p.1 = k'
        · have hk : ¬ (k' = k) := fun he => hpk (he ▸ hpk')
          simp [dinsert, dget, hpk, hpk', hk]
        · simp [dinsert, dget, hpk, hpk', ih]

lemma dmem_eq_isSome (d : List (α × β)) (k : α) :
    dmem d k = (dget d k).isSome := by
  induction d with
  | nil => rfl
  | cons p rest ih => by_cases h : p.1 = k <;> simp [dmem, dget, h, ih]

lemma dmem_iff_mem_keys (d : List (α × β)) (k : α) :
    dmem d k = true ↔ k ∈ d.map Prod.fst := by
  induction d with
  | nil => simp [dmem]
  | cons p rest ih =>
      by_cases h : p.1 = k
      · simp [dmem, h]
      · have h' : ¬ (k = p.1) := fun he => h he.symm
        simp [dmem, h, h', ih]

lemma dget_mem_keys {d : List (α × β)} {k : α} {v : β} (h : dget d k = some v) :
    k ∈ d.map Prod.fst := by
  rw [← dmem_iff_mem_keys, dmem_eq_isSome, h]
  rfl

lemma dmem_dinsert (d : List (α × β)) (k k' : α) (v : β) :
    dmem (dinsert d k v) k' = (decide (k' = k) || dmem d k') := by
  rw [dmem_eq_isSome, dget_dinsert, dmem_eq_isSome]
  by_cases h : k' = k <;> simp [h]

end DictLemmas

/-! ## Merge lemmas (the `combined` dict of `main`) -/

/-- The entries component of `main`'s merge loop: fold the entries of one
source map into `combined` (warnings dropped). -/
def mergeMap (c m : List (String × Entry)) : List (String × Entry) :=
  m.foldl (fun c kv => dinsert c kv.1 kv.2) c

lemma mergeInto_fst (acc : List (String × Entry) × List Msg)
    (m : List (String × Entry)) : (mergeInto acc m).1 = mergeMap acc.1 m := by
  induction m generalizing acc with
  | nil => rfl
  | cons kv rest ih =>
      show (mergeInto (_, _) rest).1 = _
      rw [ih]
      rfl

lemma dget_mergeMap_of_not_mem (c m : List (String × Entry)) (k : String)
    (h : dmem m k = false) : dget (mergeMap c m) k = dget c k := by
  induction m generalizing c with
  | nil => rfl
  | cons kv rest ih =>
      simp only [dmem, Bool.or_eq_false_iff, decide_eq_false_iff_not] at h
      show dget (mergeMap (dinsert c kv.1 kv.2) rest) k = _
      rw [ih _ h.2, dget_dinsert]
      have h' : ¬ (k = kv.1) := fun he => h.1 he.symm
      simp [h']

lemma dget_mergeMap_some (c m : List (String × Entry)) (k : String) (v : Entry)
    (hnd : (m.map Prod.fst).Nodup) (h : dget m k = some v) :
    dget (mergeMap c m) k = some v := by
  induction m generalizing c with
  | nil => simp [dget] at h
  | cons kv rest ih =>
      simp only [List.map_cons, List.nodup_cons] at hnd
      by_cases hk : kv.1 = k
      · subst hk
        simp [dget] at h
        show dget (mergeMap (dinsert c kv.1 kv.2) rest) kv.1 = _
        have hnm : dmem rest kv.1 = false := by
          rw [← Bool.not_eq_true, dmem_iff_mem_keys]
          exact hnd.1
        rw [dget_mergeMap_of_not_mem _ _ _ hnm, dget_dinsert]
        simp [h]
      · simp only [dget, if_neg hk] at h
        exact ih _ hnd.2 h

lemma mergeInto_msgs_mono (acc : List (String × Entry) × List Msg)
    (m : List (String × Entry)) (x : Msg) (h : x ∈ acc.2) :
    x ∈ (mergeInto acc m).2 := by
  induction m generalizing acc with
  | nil => exact h
  | cons kv rest ih =>
      show x ∈ (mergeInto (_, if dmem acc.1 kv.1 then _ else _) rest).2
      apply ih
      by_cases hd : dmem acc.1 kv.1 <;> simp [hd, h]

lemma mergeInto_warns (acc : List (String × Entry) × List Msg)
    (m : List (String × Entry)) (k : String) (hm : k ∈ m.map Prod.fst)
    (hc : dmem acc.1 k = true) :
    Msg.duplicateKey k ∈ (mergeInto acc m).2 := by
  induction m generalizing acc with
  | nil => simp at hm
  | cons kv rest ih =>
      simp only [List.map_cons, List.mem_cons] at hm
      by_cases hk : kv.1 = k
      · subst hk
        apply mergeInto_msgs_mono (dinsert acc.1 kv.1 kv.2, _) rest
        simp [hc]
      · rcases hm with hm | hm
        · exact absurd hm.symm hk
        · apply ih (dinsert acc.1 kv.1 kv.2, _) hm
          rw [dmem_dinsert]
          simp [hc]

end UpdateManifest

namespace UpdateManifest

/-- Claim C4: when two sources produce the same manifest key, the later
source's entry wins, a collision warning is emitted, and reversing the
source order flips the winner. -/
theorem c4_later_source_wins (m₁ m₂ : List (String × Entry)) (k : String)
    (v₁ v₂ : Entry)
    (hnd₁ : (m₁.map Prod.fst).Nodup) (hnd₂ : (m₂.map Prod.fst).Nodup)
    (h₁ : dget m₁ k = some v₁) (h₂ : dget m₂ k = some v₂) :
    dget (mergeInto (mergeInto ([], []) m₁) m₂).1 k = some v₂ ∧
    Msg.duplicateKey k ∈ (mergeInto (mergeInto ([], []) m₁) m₂).2 ∧
    dget (mergeInto (mergeInto ([], []) m₂) m₁).1 k = some v₁ := by
  refine ⟨?_, ?_, ?_⟩
  · rw [mergeInto_fst, mergeInto_fst]
    exact dget_mergeMap_some _ _ _ _ hnd₂ h₂
  · apply mergeInto_warns _ _ _ (dget_mem_keys h₂)
    rw [mergeInto_fst]
    rw [dmem_eq_isSome, dget_mergeMap_some _ _ _ _ hnd₁ h₁]
    rfl
  · rw [mergeInto_fst, mergeInto_fst]
    exact dget_mergeMap_some _ _ _ _ hnd₁ h₁

/-- Witness for C4 at concrete maps: source `A` maps `cards/x.json` to one
entry, source `B` to another; `[A, B]` keeps `B`'s entry, `[B, A]` keeps
`A`'s. -/
theorem c4_later_source_wins_witness :
    dget (mergeInto (mergeInto ([], []) [("cards/x.json", ⟨"aa", 1⟩)])
        [("cards/x.json", ⟨"bb", 2⟩)]).1 "cards/x.json" = some ⟨"bb", 2⟩ ∧
    Msg.duplicateKey "cards/x.json" ∈ (mergeInto (mergeInto ([], [])
        [("cards/x.json", ⟨"aa", 1⟩)]) [("cards/x.json", ⟨"bb", 2⟩)]).2 ∧
    dget (mergeInto (mergeInto ([], []) [("cards/x.json", ⟨"bb", 2⟩)])
        [("cards/x.json", ⟨"aa", 1⟩)]).1 "cards/x.json" = some ⟨"aa", 1⟩ :=
  c4_later_source_wins [("cards/x.json", ⟨"aa", 1⟩)]
    [("cards/x.json", ⟨"bb", 2⟩)] "cards/x.json" ⟨"aa", 1⟩ ⟨"bb", 2⟩
    (by decide) (by decide) (by decide) (by decide)

/-- Claim C6: when the accumulated map is empty after processing all source
specs, `main` exits with code 2 and writes no output file; when sources were
given, the "no files found" error is among the emitted messages. -/
theorem c6_empty_result_fails (w : World) (args : Args) (now : String)
    (hempty : (args.source.foldl (processSource w) ([], [])).1 = []) :
    (mainRun w args now).exit = 2 ∧ (mainRun w args now).written = none ∧
    (args.source ≠ [] → Msg.noFiles ∈ (mainRun w args now).msgs) := by
  by_cases hs : args.source.isEmpty
  · simp [mainRun, hs, List.isEmpty_iff.mp hs]
  · have h1 : (args.source.foldl (processSource w) ([], [])).1.isEmpty = true := by
      rw [hempty]
      rfl
    simp [mainRun, hs, h1]

/-- A world in which no path is a directory. -/
def c6World : World := ⟨fun _ => false, fun _ => .node [] [], fun _ => none⟩

/-- Witness for C6: one configured source that is not a directory yields an
empty map, exit code 2 and no write. -/
theorem c6_empty_result_fails_witness :
    ((["missing"] : List String).foldl (processSource c6World) ([], [])).1 = [] ∧
    (mainRun c6World ⟨["missing"], "kdm_manifest.json", [".json"]⟩ "TS").exit = 2 ∧
    (mainRun c6World ⟨["missing"], "kdm_manifest.json", [".json"]⟩ "TS").written
      = none :=
  ⟨by decide,
   (c6_empty_result_fails c6World ⟨["missing"], "kdm_manifest.json", [".json"]⟩
     "TS" (by decide)).1,
   (c6_empty_result_fails c6World ⟨["missing"], "kdm_manifest.json", [".json"]⟩
     "TS" (by decide)).2.1⟩

/-- A world with a readable `cards` directory containing only `c.txt`. -/
def c2World : World :=
  ⟨fun p => decide (p = "cards"), fun _ => .node [] ["c.txt"], fun _ => some []⟩

/-- Claim C2 (evaluation of the code at the failing input): `main` ignores
the configured include-extensions entirely — its outcome is invariant under
changing them, because the `exts` computed on line 103 is never passed to
`build_manifest`/`gather_files` — and with `--source cards --include-ext
.txt` against a readable `cards/c.txt` the run reports "no files found"
(exit 2) and writes nothing, even though `c.txt` passes the configured
filter `fileIncluded [".txt"]`. -/
theorem c2_include_ext_unused :
    (∀ (w : World) (src : List String) (out : String) (e₁ e₂ : List String)
       (now : String),
       mainRun w ⟨src, out, e₁⟩ now = mainRun w ⟨src, out, e₂⟩ now) ∧
    (mainRun c2World ⟨["cards"], "kdm_manifest.json", [".txt"]⟩ "TS").exit = 2 ∧
    (mainRun c2World ⟨["cards"], "kdm_manifest.json", [".txt"]⟩ "TS").written
      = none ∧
    fileIncluded [".txt"] "c.txt" = true := by
  refine ⟨fun w src out e₁ e₂ now => rfl, by decide, by decide, by decide⟩

/-- Claim C3 is false as stated: inclusion under the configured extension
".JSON" does not match the same files as under ".json" (witness `x.json`) —
the code lowercases only the file name, never the extension. -/
theorem c3_counterexample :
    ¬ (fileIncluded [".JSON"] "x.json" = fileIncluded [".json"] "x.json") := by
  decide

/-- Claim C3 (amended): a file is included iff the extension set is empty or
the lowercased file name ends with one of the configured extensions taken
verbatim; `X.JSON` is included under ".json", but `x.json` is not included
under ".JSON". -/
theorem c3_filter_case_sensitivity (fn : String) (exts : List String) :
    (fileIncluded exts fn = true ↔
      exts = [] ∨ ∃ e ∈ exts, e.data <:+ (pyLower fn).data) ∧
    fileIncluded [".json"] "X.JSON" = true ∧
    fileIncluded [".JSON"] "x.json" = false := by
  refine ⟨?_, by decide, by decide⟩
  simp [fileIncluded, pyEndsWith, List.any_eq_true, List.isSuffixOf_iff_suffix,
    List.isEmpty_iff]

/-! ## Serialization lemmas (for C5) -/

lemma dinsert_append_of_not_mem {α : Type} [DecidableEq α] {β : Type}
    (d : List (α × β)) (k : α) (v : β) (h : dmem d k = false) :
    dinsert d k v = d ++ [(k, v)] := by
  induction d with
  | nil => rfl
  | cons p rest ih =>
      simp only [dmem, Bool.or_eq_false_iff, decide_eq_false_iff_not] at h
      simp [dinsert, h.1, ih h.2]

lemma dmem_append {α : Type} [DecidableEq α] {β : Type}
    (d₁ d₂ : List (α × β)) (k : α) :
    dmem (d₁ ++ d₂) k = (dmem d₁ k || dmem d₂ k) := by
  induction d₁ with
  | nil => simp [dmem]
  | cons p rest ih => simp [dmem, ih, Bool.or_assoc]

lemma foldl_dinsert_fresh {α : Type} [DecidableEq α] {β : Type} (g : α → β) :
    ∀ (ks : List α) (acc : List (α × β)), ks.Nodup →
      (∀ k ∈ ks, dmem acc k = false) →
      ks.foldl (fun acc k => dinsert acc k (g k)) acc
        = acc ++ ks.map (fun k => (k, g k))
  | [], acc, _, _ => by simp
  | k :: rest, acc, hnd, hfresh => by
      simp only [List.nodup_cons] at hnd
      have hstep : dinsert acc k (g k) = acc ++ [(k, g k)] :=
        dinsert_append_of_not_mem _ _ _ (hfresh k (by simp))
      have hfresh' : ∀ k' ∈ rest, dmem (acc ++ [(k, g k)]) k' = false := by
        intro k' hk'
        rw [dmem_append]
        have h1 : dmem acc k' = false := hfresh k' (by simp [hk'])
        have h2 : ¬ (k = k') := fun he => hnd.1 (he ▸ hk')
        simp [dmem, h1, h2]
      rw [List.foldl_cons, hstep, foldl_dinsert_fresh g rest _ hnd.2 hfresh']
      simp

lemma dget_of_mem_keys {α : Type} [DecidableEq α] {β : Type}
    {d : List (α × β)} {k : α} (h : k ∈ d.map Prod.fst) :
    ∃ v, dget d k = some v := by
  rw [← dmem_iff_mem_keys, dmem_eq_isSome] at h
  exact Option.isSome_iff_exists.mp h

/-- Claim C5: for every non-empty accumulated file map (dict, hence with
unique keys) the serialized document has shape
`\x7bgenerated: <timestamp>, files: \x7b...\x7d\x7d`, every `files` entry is
`\x7bsha: digest, size: size\x7d` taken from the map, the keys of `files`
appear in ascending lexicographic order, and the document ends with a
trailing newline. -/
theorem c5_serialized_shape (now : String) (m : List (String × Entry))
    (hne : m ≠ []) (hnd : (m.map Prod.fst).Nodup) :
    ∃ fields : List (String × J),
      write_output_obj now m
        = .obj [("generated", .str now), ("files", .obj fields)] ∧
      fields.map Prod.fst = sortStrings (m.map Prod.fst) ∧
      (fields.map Prod.fst).Sorted strle ∧
      fields ≠ [] ∧
      (∀ f ∈ fields, ∃ e, dget m f.1 = some e ∧ f.2 = entryJ e) ∧
      write_output_doc now m = jRender 0 (write_output_obj now m) ++ "\n" ∧
      (write_output_doc now m).data.getLast? = some '\n' := by
  have hknd : (sortStrings (m.map Prod.fst)).Nodup :=
    ((List.perm_insertionSort _ _).nodup_iff).mpr hnd
  have hmapfst : ((sortStrings (m.map Prod.fst)).map
      (fun k => (k, entryJ ((dget m k).getD ⟨"", 0⟩)))).map Prod.fst
      = sortStrings (m.map Prod.fst) := by
    simp [Function.comp_def]
  refine ⟨(sortStrings (m.map Prod.fst)).map
    (fun k => (k, entryJ ((dget m k).getD ⟨"", 0⟩))), ?_, hmapfst, ?_, ?_, ?_, rfl, ?_⟩
  · unfold write_output_obj
    rw [foldl_dinsert_fresh (fun k => entryJ ((dget m k).getD ⟨"", 0⟩))
      (sortStrings (m.map Prod.fst)) [] hknd (fun _ _ => rfl)]
    rfl
  · rw [hmapfst]
    exact List.sorted_insertionSort _ _
  · intro hcon
    have := congrArg List.length hcon
    simp only [List.length_map, sortStrings, List.length_insertionSort,
      List.length_nil] at this
    exact hne (List.eq_nil_of_length_eq_zero this)
  · intro f hf
    obtain ⟨k, hk, rfl⟩ := List.mem_map.mp hf
    have hkm : k ∈ m.map Prod.fst := by
      have := (List.mem_insertionSort (r := strle)
        (l := m.map Prod.fst)).mp hk
      exact this
    obtain ⟨e, he⟩ := dget_of_mem_keys hkm
    exact ⟨e, he, by simp [he]⟩
  · unfold write_output_doc
    rw [String.data_append]
    exact List.getLast?_concat _

/-- Witness for C5 at the concrete two-entry map of the spec's worked
example (keys presented unsorted). -/
theorem c5_serialized_shape_witness :
    (([("cards/b.json", (⟨"bb", 3⟩ : Entry)), ("cards/a.json", ⟨"aa", 7⟩)] :
        List (String × Entry)) ≠ [] ∧
      (([("cards/b.json", (⟨"bb", 3⟩ : Entry)),
        ("cards/a.json", ⟨"aa", 7⟩)].map Prod.fst)).Nodup) ∧
    ∃ fields : List (String × J),
      write_output_obj "TS"
          [("cards/b.json", ⟨"bb", 3⟩), ("cards/a.json", ⟨"aa", 7⟩)]
        = .obj [("generated", .str "TS"), ("files", .obj fields)] ∧
      fields.map Prod.fst
        = sortStrings ([("cards/b.json", (⟨"bb", 3⟩ : Entry)),
            ("cards/a.json", ⟨"aa", 7⟩)].map Prod.fst) ∧
      (fields.map Prod.fst).Sorted strle ∧
      fields ≠ [] ∧
      (∀ f ∈ fields, ∃ e,
        dget [("cards/b.json", ⟨"bb", 3⟩), ("cards/a.json", ⟨"aa", 7⟩)] f.1
          = some e ∧ f.2 = entryJ e) ∧
      write_output_doc "TS"
          [("cards/b.json", ⟨"bb", 3⟩), ("cards/a.json", ⟨"aa", 7⟩)]
        = jRender 0 (write_output_obj "TS"
            [("cards/b.json", ⟨"bb", 3⟩), ("cards/a.json", ⟨"aa", 7⟩)]) ++ "\n" ∧
      (write_output_doc "TS"
          [("cards/b.json", ⟨"bb", 3⟩),
           ("cards/a.json", ⟨"aa", 7⟩)]).data.getLast? = some '\n' :=
  ⟨⟨by decide, by decide⟩,
   c5_serialized_shape "TS"
     [("cards/b.json", ⟨"bb", 3⟩), ("cards/a.json", ⟨"aa", 7⟩)]
     (by decide) (by decide)⟩

/-! ## Error-propagation lemmas (for C7) -/

/-- The entries component of one `main`-loop step (warnings dropped). -/
def processC (w : World) (c : List (String × Entry)) (s : String) :
    List (String × Entry) :=
  let kp := parseSource s
  if w.isdir kp.2 = false then c
  else mergeMap c (build_manifest w.read kp.2 (w.tree kp.2) kp.1).1

lemma processSource_fst (w : World) (acc : List (String × Entry) × List Msg)
    (s : String) : (processSource w acc s).1 = processC w acc.1 s := by
  unfold processSource processC
  by_cases h : w.isdir (parseSource s).2 = false <;> simp [h, mergeInto_fst]

lemma foldl_processSource_fst (w : World) (l : List String)
    (acc : List (String × Entry) × List Msg) :
    (l.foldl (processSource w) acc).1 = l.foldl (processC w) acc.1 := by
  induction l generalizing acc with
  | nil => rfl
  | cons s rest ih =>
      rw [List.foldl_cons, List.foldl_cons, ih, processSource_fst]

lemma processSource_msgs_mono (w : World)
    (acc : List (String × Entry) × List Msg) (s : String) (x : Msg)
    (h : x ∈ acc.2) : x ∈ (processSource w acc s).2 := by
  unfold processSource
  by_cases hd : w.isdir (parseSource s).2 = false
  · simp [hd, h]
  · simp only [hd, if_neg, Bool.false_eq_true, if_false]
    exact mergeInto_msgs_mono _ _ _ (by simp [h])

lemma foldl_processSource_msgs_mono (w : World) (l : List String)
    (acc : List (String × Entry) × List Msg) (x : Msg) (h : x ∈ acc.2) :
    x ∈ (l.foldl (processSource w) acc).2 := by
  induction l generalizing acc with
  | nil => exact h
  | cons s rest ih =>
      exact ih _ (processSource_msgs_mono w acc s x h)

/-- The entries component of one `build_manifest`-loop step. -/
def buildC (read : String → Option (List Nat)) (source_key : String)
    (c : List (String × Entry)) (fr : String × String) :
    List (String × Entry) :=
  match read fr.1 with
  | none => c
  | some data =>
      let key := if source_key = "" then fr.2 else source_key ++ "/" ++ fr.2
      dinsert c key ⟨git_blob_sha1 data, data.length⟩

lemma buildStep_fst (read : String → Option (List Nat)) (skey : String)
    (acc : List (String × Entry) × List Msg) (fr : String × String) :
    (buildStep read skey acc fr).1 = buildC read skey acc.1 fr := by
  unfold buildStep buildC
  cases read fr.1 <;> rfl

lemma foldl_buildStep_fst (read : String → Option (List Nat)) (skey : String)
    (files : List (String × String))
    (acc : List (String × Entry) × List Msg) :
    (files.foldl (buildStep read skey) acc).1
      = files.foldl (buildC read skey) acc.1 := by
  induction files generalizing acc with
  | nil => rfl
  | cons fr rest ih =>
      rw [List.foldl_cons, List.foldl_cons, ih, buildStep_fst]

lemma buildStep_msgs_mono (read : String → Option (List Nat)) (skey : String)
    (acc : List (String × Entry) × List Msg) (fr : String × String) (x : Msg)
    (h : x ∈ acc.2) : x ∈ (buildStep read skey acc fr).2 := by
  unfold buildStep
  cases read fr.1 <;> simp [h]

lemma foldl_buildStep_msgs_mono (read : String → Option (List Nat))
    (skey : String) (files : List (String × String))
    (acc : List (String × Entry) × List Msg) (x : Msg) (h : x ∈ acc.2) :
    x ∈ (files.foldl (buildStep read skey) acc).2 := by
  induction files generalizing acc with
  | nil => exact h
  | cons fr rest ih =>
      exact ih _ (buildStep_msgs_mono read skey acc fr x h)

/-- Claim C7: a source whose path is not a directory is skipped with a
warning and contributes nothing — the accumulated entries equal those of the
run without it, and the remaining sources are still processed; likewise an
unreadable file is skipped with a warning naming it, the built entries equal
those of the run without that file, and the remaining files are still
processed. -/
theorem c7_problems_downgraded (w : World)
    (acc : List (String × Entry) × List Msg) (xs ys : List String)
    (s : String) (read : String → Option (List Nat)) (skey : String)
    (fxs fys : List (String × String)) (fr : String × String)
    (hskip : w.isdir (parseSource s).2 = false)
    (hread : read fr.1 = none) :
    ((xs ++ s :: ys).foldl (processSource w) acc).1
      = ((xs ++ ys).foldl (processSource w) acc).1 ∧
    Msg.sourceMissing (parseSource s).2
      ∈ ((xs ++ s :: ys).foldl (processSource w) acc).2 ∧
    (buildFiles read skey (fxs ++ fr :: fys)).1
      = (buildFiles read skey (fxs ++ fys)).1 ∧
    Msg.readFailed fr.1 ∈ (buildFiles read skey (fxs ++ fr :: fys)).2 := by
  refine ⟨?_, ?_, ?_, ?_⟩
  · rw [foldl_processSource_fst, foldl_processSource_fst,
      List.foldl_append, List.foldl_append, List.foldl_cons]
    have hs : processC w (xs.foldl (processC w) acc.1) s
        = xs.foldl (processC w) acc.1 := by
      unfold processC
      simp [hskip]
    rw [hs]
  · rw [List.foldl_append, List.foldl_cons]
    apply foldl_processSource_msgs_mono
    unfold processSource
    simp [hskip]
  · unfold buildFiles
    rw [foldl_buildStep_fst, foldl_buildStep_fst,
      List.foldl_append, List.foldl_append, List.foldl_cons]
    have hb : buildC read skey (fxs.foldl (buildC read skey) []) fr
        = fxs.foldl (buildC read skey) [] := by
      unfold buildC
      rw [hread]
    rw [hb]
  · unfold buildFiles
    rw [List.foldl_append, List.foldl_cons]
    apply foldl_buildStep_msgs_mono
    unfold buildStep
    rw [hread]
    simp

/-- A world for the C7 witness: `cards` is a directory holding `x.json` and
`y.json`, of which `cards/x.json` cannot be read; `gone` is not a
directory. -/
def c7World : World :=
  ⟨fun p => decide (p = "cards"),
   fun _ => .node [] ["x.json", "y.json"],
   fun p => if p = "cards/x.json" then none else some [49]⟩

/-- Witness for C7: the missing source `gone` and the unreadable file
`cards/x.json` are each skipped with a warning while the rest is
processed. -/
theorem c7_problems_downgraded_witness :
    (c7World.isdir (parseSource "gone").2 = false ∧
      c7World.read ("cards/x.json", "x.json").1 = none) ∧
    ((["gone", "cards"] : List String).foldl (processSource c7World)
        ([], [])).1
      = ((["cards"] : List String).foldl (processSource c7World) ([], [])).1 ∧
    Msg.sourceMissing (parseSource "gone").2
      ∈ ((["gone", "cards"] : List String).foldl (processSource c7World)
        ([], [])).2 ∧
    (buildFiles c7World.read "cards"
        ([("cards/x.json", "x.json"), ("cards/y.json", "y.json")])).1
      = (buildFiles c7World.read "cards" [("cards/y.json", "y.json")]).1 ∧
    Msg.readFailed ("cards/x.json", "x.json").1
      ∈ (buildFiles c7World.read "cards"
        [("cards/x.json", "x.json"), ("cards/y.json", "y.json")]).2 :=
  ⟨⟨by decide, by decide⟩,
   c7_problems_downgraded c7World ([], []) [] ["cards"] "gone" c7World.read
     "cards" [] [("cards/y.json", "y.json")] ("cards/x.json", "x.json")
     (by decide) (by decide)⟩

/-! ## Atomic-write lemmas (for C8 and C10) -/

lemma append_tmp_ne (s : String) : s ≠ s ++ ".tmp" := by
  intro h
  have hl := congrArg String.length h
  rw [String.length_append] at hl
  have h4 : (".tmp" : String).length = 4 := by decide
  omega

lemma dirname_append_tmp (s : String) :
    dirname (s ++ ".tmp") = dirname s := by
  unfold dirname
  rw [String.data_append]
  have h1 : (s.data ++ (".tmp" : String).data).reverse
      = ['p', 'm', 't', '.'] ++ s.data.reverse := by
    rw [List.reverse_append]
    rfl
  rw [h1, List.findIdx?_append]
  have h2 : List.findIdx? (fun c => decide (c = '/')) ['p', 'm', 't', '.']
      = none := by decide
  rw [h2, Option.none_or]
  cases hidx : List.findIdx? (fun c => decide (c = '/')) s.data.reverse with
  | none => rfl
  | some i =>
      simp only [Option.map_some']
      unfold dirnameAux
      have htake : (s.data ++ (".tmp" : String).data).take
          ((s.data ++ (".tmp" : String).data).length
            - (i + List.length ['p', 'm', 't', '.']))
          = s.data.take (s.data.length - i) := by
        rw [List.length_append]
        have h4 : (".tmp" : String).data.length = 4 := by decide
        have heq : s.data.length + (".tmp" : String).data.length
            - (i + List.length ['p', 'm', 't', '.']) = s.data.length - i := by
          simp only [List.length_cons, List.length_nil, h4]
          omega
        rw [heq]
        exact List.take_append_of_le_length (by omega)
      simp only [htake]

/-- Claim C8: the serializer's effect sequence writes the whole document to
the colocated temporary path `out + ".tmp"` and only then renames it onto
the destination; every run either succeeds, leaving the full document at the
destination, or fails at some step, leaving the previous destination
contents untouched. -/
theorem c8_atomic_write (out_path doc : String) (st : FS) (res : Bool × FS)
    (hrun : RunsTo st (write_output_effects out_path doc) res) :
    dirname (out_path ++ ".tmp") = dirname out_path ∧
    (res.1 = true → res.2.files out_path = some doc) ∧
    (res.1 = false → res.2.files out_path = st.files out_path) := by
  refine ⟨dirname_append_tmp out_path, ?_, ?_⟩
  all_goals
    intro hres
    have hne : out_path ≠ out_path ++ ".tmp" := append_tmp_ne out_path
    unfold write_output_effects at hrun
    cases hrun with
    | fail st st' e es hfail =>
        cases hfail with
        | mkdirs _ _ h => simp_all
    | step _ _ _ _ h2 =>
        cases h2 with
        | fail st₁ st' e es hfail =>
            cases hfail with
            | writeFile _ pre hpre => simp_all [applyEff]
        | step _ _ _ _ h3 =>
            cases h3 with
            | fail st₂ st' e es hfail =>
                cases hfail with
                | replace => simp_all [applyEff]
            | step _ _ _ _ h4 =>
                cases h4 with
                | done => simp_all [applyEff]

/-- Claim C10: for a destination that is a bare filename (no `/`), the
mkdirs target defaults to the current directory `"."`, and since `"."`
exists, the directory-creation step cannot fail. -/
theorem c10_bare_output_mkdir (out_path doc : String) (st : FS)
    (hns : '/' ∉ out_path.data) (hdot : "." ∈ st.dirs) :
    (write_output_effects out_path doc).head? = some (.mkdirs ".") ∧
    ∀ st', ¬ EffFails st (.mkdirs ".") st' := by
  constructor
  · unfold write_output_effects
    have hd : dirname out_path = "" := by
      unfold dirname
      have : List.findIdx? (fun c => decide (c = '/')) out_path.data.reverse
          = none := by
        rw [List.findIdx?_eq_none_iff]
        intro x hx
        simp only [decide_eq_false_iff_not]
        intro he
        exact hns (he ▸ List.mem_reverse.mp hx)
      rw [this]
      rfl
    rw [hd]
    rfl
  · intro st' hf
    cases hf with
    | mkdirs _ _ h => exact h hdot

/-- Witness for C10 at the default output filename. -/
theorem c10_bare_output_mkdir_witness :
    ('/' ∉ ("kdm_manifest.json" : String).data ∧
      "." ∈ (⟨fun _ => none, ["."]⟩ : FS).dirs) ∧
    (write_output_effects "kdm_manifest.json" "doc").head?
      = some (.mkdirs ".") ∧
    ∀ st', ¬ EffFails (⟨fun _ => none, ["."]⟩ : FS) (.mkdirs ".") st' :=
  ⟨⟨by decide, by decide⟩,
   c10_bare_output_mkdir "kdm_manifest.json" "doc" ⟨fun _ => none, ["."]⟩
     (by decide) (by decide)⟩

/-- The starting filesystem of the C8 witness: nothing written, current
directory present. -/
def c8St : FS := ⟨fun _ => none, ["."]⟩

/-- The final filesystem of the C8 witness's successful run. -/
def c8End : FS :=
  applyEff (applyEff (applyEff c8St (.mkdirs "."))
    (.writeFile ("o.json" ++ ".tmp") "D")) (.replace ("o.json" ++ ".tmp") "o.json")

/-- Witness for C8: a concrete successful run leaves the full document at
the destination. -/
theorem c8_atomic_write_witness :
    RunsTo c8St (write_output_effects "o.json" "D") (true, c8End) ∧
    c8End.files "o.json" = some "D" :=
  have hrun : RunsTo c8St (write_output_effects "o.json" "D") (true, c8End) := by
    apply RunsTo.step
    apply RunsTo.step
    apply RunsTo.step
    exact RunsTo.done _
  ⟨hrun, (c8_atomic_write "o.json" "D" c8St (true, c8End) hrun).2.1 rfl⟩

/-! ## Determinism of the scan (for C9)

Filesystem enumeration order is the order of the `dirs` and `files` lists in
an `FsTree`.  Two trees that present the same contents in different
enumeration orders have the same canonical form `canon` (children sorted
recursively); the claim is that the scan, and hence the built manifest, is
invariant under enumeration order because the walk sorts at every level. -/

mutual
/-- Canonical form of a tree: all children sorted, recursively. -/
def canon : FsTree → FsTree
  | .node dirs files => .node (sortPairs (canonL dirs)) (sortStrings files)
/-- Canonicalize the subtrees of a directory list. -/
def canonL : List (String × FsTree) → List (String × FsTree)
  | [] => []
  | (d, t) :: rest => (d, canon t) :: canonL rest
end

mutual
/-- Well-formed tree: subdirectory names are duplicate-free at every level
(as on a real filesystem). -/
def wfT : FsTree → Bool
  | .node dirs _ => decide ((dirs.map Prod.fst).Nodup) && wfL dirs
/-- Well-formedness of all subtrees of a directory list. -/
def wfL : List (String × FsTree) → Bool
  | [] => true
  | (_, t) :: rest => wfT t && wfL rest
end

/-- Structural induction for `FsTree` through the nested list. -/
lemma FsTree.ind {motive : FsTree → Prop}
    (h : ∀ dirs files, (∀ p ∈ dirs, motive p.2) → motive (.node dirs files)) :
    ∀ t, motive t := by
  have key : ∀ n t, sizeOf t ≤ n → motive t := by
    intro n
    induction n with
    | zero =>
        intro t ht
        cases t with
        | node dirs files => simp [FsTree.node.sizeOf_spec] at ht
    | succ n ih =>
        intro t ht
        cases t with
        | node dirs files =>
            apply h
            intro p hp
            apply ih
            have h1 := List.sizeOf_lt_of_mem hp
            have h2 : sizeOf p.2 < sizeOf p := by
              obtain ⟨a, b⟩ := p
              simp [Prod.mk.sizeOf_spec]
            rw [FsTree.node.sizeOf_spec] at ht
            omega
  intro t
  exact key (sizeOf t) t le_rfl

lemma canonL_eq_map (l : List (String × FsTree)) :
    canonL l = l.map (fun p => (p.1, canon p.2)) := by
  induction l with
  | nil => rfl
  | cons p rest ih =>
      obtain ⟨d, t⟩ := p
      simp [canonL, ih]

lemma wfL_mem {l : List (String × FsTree)} (hw : wfL l = true)
    {p : String × FsTree} (hp : p ∈ l) : wfT p.2 = true := by
  induction l with
  | nil => cases hp
  | cons q rest ih =>
      obtain ⟨d, t⟩ := q
      simp only [wfL, Bool.and_eq_true] at hw
      rcases List.mem_cons.mp hp with h | h
      · rw [h]
        exact hw.1
      · exact ih hw.2 h

lemma tsizeL_eq_sum (l : List (String × FsTree)) :
    tsizeL l = (l.map (fun p => tsize p.2)).sum := by
  induction l with
  | nil => rfl
  | cons p rest ih =>
      obtain ⟨d, t⟩ := p
      simp [tsizeL, ih]

lemma tsize_pos (t : FsTree) : 1 ≤ tsize t := by
  cases t with
  | node dirs files =>
      simp only [tsize]
      omega

lemma tsize_le_tsizeL {p : String × FsTree} {l : List (String × FsTree)}
    (h : p ∈ l) : tsize p.2 ≤ tsizeL l := by
  induction l with
  | nil => cases h
  | cons q rest ih =>
      obtain ⟨d, t⟩ := q
      rcases List.mem_cons.mp h with he | he
      · rw [he]
        simp [tsizeL]
      · calc tsize p.2 ≤ tsizeL rest := ih he
          _ ≤ tsize t + tsizeL rest := Nat.le_add_left _ _

/-- The strict by-name order on directory entries: at most one entry of a
duplicate-free directory list satisfies it against another. -/
def ltName {α : Type} (a b : String × α) : Prop := leName a b ∧ a.1 ≠ b.1

instance {α : Type} : IsAntisymm (String × α) (@ltName α) :=
  ⟨fun _ _ h₁ h₂ =>
    absurd (string_data_inj (lexLe_antisymm _ _ h₁.1 h₂.1)) h₁.2⟩

lemma sorted_lt_of_sorted_le_nodup {α : Type} (l : List (String × α))
    (hs : l.Sorted (@leName α)) (hn : (l.map Prod.fst).Nodup) :
    l.Sorted (@ltName α) := by
  have hp : l.Pairwise (fun a b : String × α => a.1 ≠ b.1) :=
    List.pairwise_map.mp hn
  exact (hs.and hp).imp (fun h => ⟨h.1, h.2⟩)

lemma map_fst_sortPairs {α : Type} (l : List (String × α)) :
    ((sortPairs l).map Prod.fst).Nodup ↔ (l.map Prod.fst).Nodup :=
  ((List.perm_insertionSort _ _).map Prod.fst).nodup_iff

lemma sortPairs_eq_of_perm {α : Type} (l₁ l₂ : List (String × α))
    (hp : l₁.Perm l₂) (hn : (l₁.map Prod.fst).Nodup) :
    sortPairs l₁ = sortPairs l₂ := by
  apply List.eq_of_perm_of_sorted (r := @ltName α)
  · exact (List.perm_insertionSort _ _).trans
      (hp.trans (List.perm_insertionSort _ _).symm)
  · exact sorted_lt_of_sorted_le_nodup _ (List.sorted_insertionSort _ _)
      ((map_fst_sortPairs _).mpr hn)
  · exact sorted_lt_of_sorted_le_nodup _ (List.sorted_insertionSort _ _)
      ((map_fst_sortPairs _).mpr ((hp.map Prod.fst).nodup_iff.mp hn))

lemma sorted_le_map_sortPairs {α β : Type} (g : α → β)
    (l : List (String × α)) :
    ((sortPairs l).map (fun p => (p.1, g p.2))).Sorted (@leName β) := by
  have hs : (sortPairs l).Sorted (@leName α) := List.sorted_insertionSort _ _
  rw [List.Sorted, List.pairwise_map]
  exact hs.imp (fun h => h)

lemma map_fst_fstmap {α β : Type} (g : α → β) (l : List (String × α)) :
    (l.map (fun p => (p.1, g p.2))).map Prod.fst = l.map Prod.fst := by
  simp [Function.comp_def]

lemma sortPairs_map_comm {α β : Type} (g : α → β) (l : List (String × α))
    (hn : (l.map Prod.fst).Nodup) :
    sortPairs (l.map (fun p => (p.1, g p.2)))
      = (sortPairs l).map (fun p => (p.1, g p.2)) := by
  apply List.eq_of_perm_of_sorted (r := @ltName β)
  · exact (List.perm_insertionSort _ _).trans
      (((List.perm_insertionSort leName l).symm).map _)
  · apply sorted_lt_of_sorted_le_nodup _ (List.sorted_insertionSort _ _)
    exact (map_fst_sortPairs _).mpr (by rw [map_fst_fstmap]; exact hn)
  · apply sorted_lt_of_sorted_le_nodup _ (sorted_le_map_sortPairs g l)
    rw [map_fst_fstmap]
    exact (map_fst_sortPairs l).mpr hn

lemma flatMap_congr_mem {α β : Type} (l : List α) (f g : α → List β)
    (h : ∀ a ∈ l, f a = g a) : l.flatMap f = l.flatMap g := by
  induction l with
  | nil => rfl
  | cons a rest ih =>
      simp only [List.flatMap_cons]
      rw [h a (by simp), ih (fun a ha => h a (by simp [ha]))]

lemma tsize_canon : ∀ t, tsize (canon t) = tsize t := by
  apply FsTree.ind
  intro dirs files ih
  show tsize (.node (sortPairs (canonL dirs)) (sortStrings files)) = _
  simp only [tsize]
  have hlen : (sortStrings files).length = files.length :=
    List.length_insertionSort _ _
  have hsum : tsizeL (sortPairs (canonL dirs)) = tsizeL dirs := by
    rw [tsizeL_eq_sum, tsizeL_eq_sum]
    have hperm : (sortPairs (canonL dirs)).Perm (canonL dirs) :=
      List.perm_insertionSort _ _
    rw [(hperm.map (fun p => tsize p.2)).sum_eq, canonL_eq_map, List.map_map]
    apply congrArg
    apply List.map_congr_left
    intro p hp
    exact ih p hp
  rw [hlen, hsum]

lemma walkAux_fuel (exts : List String) :
    ∀ fuel₁ fuel₂ root relp t, tsize t ≤ fuel₁ → tsize t ≤ fuel₂ →
      walkAux exts fuel₁ root relp t = walkAux exts fuel₂ root relp t := by
  intro fuel₁
  induction fuel₁ with
  | zero =>
      intro fuel₂ root relp t h₁ h₂
      exact absurd h₁ (by have := tsize_pos t; omega)
  | succ f ih =>
      intro fuel₂ root relp t h₁ h₂
      cases fuel₂ with
      | zero => exact absurd h₂ (by have := tsize_pos t; omega)
      | succ g =>
          cases t with
          | node dirs files =>
              simp only [walkAux]
              congr 1
              apply flatMap_congr_mem
              intro p hp
              have hmem : p ∈ dirs := (List.mem_insertionSort _).mp hp
              have hle : tsize p.2 ≤ tsizeL dirs := tsize_le_tsizeL hmem
              simp only [tsize] at h₁ h₂
              exact ih g _ _ _ (by omega) (by omega)

lemma walk_canon (exts : List String) :
    ∀ t, wfT t = true → ∀ fuel root relp, tsize t ≤ fuel →
      walkAux exts fuel root relp t = walkAux exts fuel root relp (canon t) := by
  apply FsTree.ind
  intro dirs files ih hwf fuel root relp hfuel
  simp only [wfT, Bool.and_eq_true, decide_eq_true_eq] at hwf
  cases fuel with
  | zero =>
      exact absurd hfuel (by have := tsize_pos (.node dirs files); omega)
  | succ f =>
      show _ = walkAux exts (f + 1) root relp
        (.node (sortPairs (canonL dirs)) (sortStrings files))
      simp only [walkAux]
      have hfiles : sortStrings (sortStrings files) = sortStrings files :=
        (List.sorted_insertionSort _ _).insertionSort_eq
      have hdirs : sortPairs (sortPairs (canonL dirs)) = sortPairs (canonL dirs) :=
        (List.sorted_insertionSort _ _).insertionSort_eq
      rw [hfiles, hdirs, canonL_eq_map, sortPairs_map_comm _ _ hwf.1,
        List.flatMap_map]
      apply congrArg
      apply flatMap_congr_mem
      intro p hp
      have hmem : p ∈ dirs := (List.mem_insertionSort _).mp hp
      have hle : tsize p.2 ≤ tsizeL dirs := tsize_le_tsizeL hmem
      simp only [tsize] at hfuel
      exact ih p hmem (wfL_mem hwf.2 hmem) f _ _ (by omega)

/-- The field of a JSON object under a key. -/
def jField (j : J) (k : String) : Option J :=
  match j with
  | .obj fields => dget fields k
  | _ => none

/-- Claim C9: on trees with the same contents (equal canonical forms, i.e.
the same files and subdirectories at every level, in any enumeration
order), the builder produces identical output — same keys, digests, sizes
and warnings — because names are sorted at every directory level; while the
`generated` field of the serialized document carries the run's timestamp,
so two runs with different timestamps differ exactly there. -/
theorem c9_deterministic_scan (read : String → Option (List Nat))
    (src key : String) (t₁ t₂ : FsTree) (ts₁ ts₂ : String)
    (m : List (String × Entry))
    (hwf₁ : wfT t₁ = true) (hwf₂ : wfT t₂ = true)
    (hperm : canon t₁ = canon t₂) (hts : ts₁ ≠ ts₂) :
    build_manifest read src t₁ key = build_manifest read src t₂ key ∧
    jField (write_output_obj ts₁ m) "generated" = some (.str ts₁) ∧
    jField (write_output_obj ts₁ m) "generated"
      ≠ jField (write_output_obj ts₂ m) "generated" := by
  have hsz : tsize t₁ = tsize t₂ := by
    rw [← tsize_canon t₁, hperm, tsize_canon]
  have hgather : gather_files src t₁ gather_files_default
      = gather_files src t₂ gather_files_default := by
    unfold gather_files
    calc walkAux gather_files_default (tsize t₁) src "" t₁
        = walkAux gather_files_default (tsize t₁) src "" (canon t₁) :=
          walk_canon _ _ hwf₁ _ _ _ le_rfl
      _ = walkAux gather_files_default (tsize t₂) src "" (canon t₁) :=
          walkAux_fuel _ _ _ _ _ _ (le_of_eq (tsize_canon t₁))
            (le_of_eq ((tsize_canon t₁).trans hsz))
      _ = walkAux gather_files_default (tsize t₂) src "" (canon t₂) := by
          rw [hperm]
      _ = walkAux gather_files_default (tsize t₂) src "" t₂ :=
          (walk_canon _ _ hwf₂ _ _ _ le_rfl).symm
  refine ⟨?_, rfl, ?_⟩
  · unfold build_manifest
    rw [hgather]
  · intro hcon
    have h1 : jField (write_output_obj ts₁ m) "generated" = some (.str ts₁) := rfl
    have h2 : jField (write_output_obj ts₂ m) "generated" = some (.str ts₂) := rfl
    rw [h1, h2] at hcon
    injection hcon with h3
    injection h3 with h4
    exact hts h4

/-- A tree whose children are listed in one enumeration order. -/
def c9Tree₁ : FsTree :=
  .node [("b", .node [] ["y.json"]), ("a", .node [] ["x.json", "w.json"])]
    ["r.json", "q.json"]

/-- The same contents in another enumeration order. -/
def c9Tree₂ : FsTree :=
  .node [("a", .node [] ["w.json", "x.json"]), ("b", .node [] ["y.json"])]
    ["q.json", "r.json"]

/-- Witness for C9 on two concrete enumeration orders of one directory. -/
theorem c9_deterministic_scan_witness :
    (wfT c9Tree₁ = true ∧ wfT c9Tree₂ = true ∧ canon c9Tree₁ = canon c9Tree₂ ∧
      ("T1" : String) ≠ "T2") ∧
    build_manifest (fun _ => some [49]) "cards" c9Tree₁ "cards"
      = build_manifest (fun _ => some [49]) "cards" c9Tree₂ "cards" ∧
    jField (write_output_obj "T1" []) "generated" = some (.str "T1") ∧
    jField (write_output_obj "T1" []) "generated"
      ≠ jField (write_output_obj "T2" []) "generated" :=
  ⟨⟨by decide, by decide, rfl, by decide⟩,
   c9_deterministic_scan (fun _ => some [49]) "cards" "cards" c9Tree₁ c9Tree₂
     "T1" "T2" [] (by decide) (by decide) rfl (by decide)⟩

end UpdateManifest
